import Mathlib

/-!
Verification of `openedx/core/lib/request_utils.py`.

The Python module defines four components:
  * `get_request_or_stub` — return the current request or a stub GET request
    built from `settings.SITE_NAME`;
  * `safe_get_host` — return `request.get_host()` only when `ALLOWED_HOSTS`
    is trustworthy, falling back to the configured site domain;
  * `course_id_from_url` — extract a course key from a URL, returning `None`
    on any failure;
  * `CookieMonitoringMiddleware.process_request` — emit size metrics for the
    request's cookies.

Each Python function is embedded as an executable Lean function over explicit
inputs.  External collaborators (crum's current request, `urlparse`, the
waffle flag, `CourseKey.from_string`, the `COURSE_REGEX` matcher, Django
settings and site configuration) are passed in as parameters, so theorems
quantify over their behaviour.
-/

namespace RequestUtils

/-! ### Python dictionary primitives

`request.COOKIES` is a Python `dict`; iteration follows insertion order.
We embed dictionaries as association lists in insertion order, with the
assignment and `get(key, default)` operations of Python dicts. -/

/-- Python `d[k] = v`: update the entry for an existing key in place
(Python dict keys are unique, so updating the first occurrence is
equivalent), otherwise append the new entry at the end. -/
def dictSet : List (String × Nat) → String → Nat → List (String × Nat)
  | [], k, v => [(k, v)]
  | p :: rest, k, v =>
      if p.1 = k then (k, v) :: rest else p :: dictSet rest k v

/-- Python `d.get(k, dflt)`. -/
def dictGetD : List (String × Nat) → String → Nat → Nat
  | [], _, dflt => dflt
  | p :: rest, k, dflt => if p.1 = k then p.2 else dictGetD rest k dflt

/-- The keys of an embedded dict, in insertion order. -/
def dictKeys (d : List (String × Nat)) : List String :=
  d.map Prod.fst

/-- One comparison step of Python's `max`: the current best is replaced
only when the next item's key value is strictly greater. -/
def pyStep (acc q : String × Nat) : String × Nat :=
  if q.2 > acc.2 then q else acc

/-- Python `max(d, key=lambda k: d[k])` paired with its value: scan the
entries in iteration order keeping the first entry of maximal value.
Returns `none` for an empty dict, where Python raises
`ValueError: max() arg is an empty sequence`. -/
def pyMaxByVal : List (String × Nat) → Option (String × Nat)
  | [] => none
  | p :: rest => some (rest.foldl pyStep p)

/-! ### CookieMonitoringMiddleware.process_request -/

/-- The character class `[._]` of the `re.split` call: `true` when the
character is not a separator. -/
def notSep (c : Char) : Bool :=
  !(c = '.' || c = '_')

/-- `re.split('[._]', name, 1)[0]`: the part of the cookie name before the
first `'.'` or `'_'` (the whole name when neither occurs). -/
def groupingName (name : String) : String :=
  ⟨name.data.takeWhile notSep⟩

/-- The guard `if grouping_name and grouping_name != name:` under which a
cookie contributes to a prefix group (a Python string is truthy iff it is
non-empty). -/
def grouped (name : String) : Bool :=
  groupingName name ≠ "" && groupingName name ≠ name

/-- Effect of one loop iteration on `cookie_names_to_size`:
`cookie_names_to_size[name] = cookie_size`. -/
def namesStep (a : List (String × Nat)) (c : String × String) :
    List (String × Nat) :=
  dictSet a c.1 c.2.length

/-- Effect of one loop iteration on `cookie_groups_to_size`:
`cookie_groups_to_size[grouping_name] =
 cookie_groups_to_size.get(grouping_name, 0) + cookie_size`, guarded by
`if grouping_name and grouping_name != name:`. -/
def groupsStep (a : List (String × Nat)) (c : String × String) :
    List (String × Nat) :=
  if grouped c.1 then
    dictSet a (groupingName c.1) (dictGetD a (groupingName c.1) 0 + c.2.length)
  else a

/-- One iteration of the `for name, value in request.COOKIES.items():` loop:
record the cookie's size and, when it has a proper prefix group, add the
size to that group's total. -/
def cookieFold (st : List (String × Nat) × List (String × Nat))
    (c : String × String) : List (String × Nat) × List (String × Nat) :=
  (namesStep st.1 c, groupsStep st.2 c)

/-- The two dicts `cookie_names_to_size` and `cookie_groups_to_size` after
the loop over `request.COOKIES.items()`. -/
def cookieMaps (cookies : List (String × String)) :
    List (String × Nat) × List (String × Nat) :=
  cookies.foldl cookieFold ([], [])

/-- The custom attributes and log lines emitted by one run of
`process_request`:  `cookies.<g>.group.size` for each group in dict order,
then the four `cookies.max.*` attributes, then `cookies_total_size`. -/
structure CookieReport where
  groupAttrs : List (String × Nat)
  maxName : String
  maxSize : Nat
  maxGroupName : String
  maxGroupSize : Nat
  totalSize : Nat
  deriving Repr, DecidableEq

/-- Outcome of one call to `process_request`:  early return with the flag
disabled, an uncaught `ValueError` from `max()` on an empty dict, or a
normal return after emitting a report. -/
inductive PResult where
  | skipped
  | error
  | report (r : CookieReport)
  deriving Repr, DecidableEq

/-- `CookieMonitoringMiddleware.process_request`, as a function of the
waffle-flag state and the request's cookie dict (name, value entries in
insertion order).  Mirrors the source line by line: flag check, the
loop building the two dicts, `max` over each dict (raising on empty,
modelled as `.error`), the single-cookie-as-group-of-one comparison, and
the emitted attributes. -/
def process_request (flagEnabled : Bool) (cookies : List (String × String)) :
    PResult :=
  if !flagEnabled then .skipped
  else
    let maps := cookieMaps cookies
    let cookie_names_to_size := maps.1
    let cookie_groups_to_size := maps.2
    match pyMaxByVal cookie_names_to_size with
    | none => .error
    | some mc =>
      match pyMaxByVal cookie_groups_to_size with
      | none => .error
      | some mg =>
        let maxPair := if mg.2 < mc.2 then mc else mg
        .report
          { groupAttrs := cookie_groups_to_size
            maxName := mc.1
            maxSize := mc.2
            maxGroupName := maxPair.1
            maxGroupSize := maxPair.2
            totalSize := (cookie_names_to_size.map Prod.snd).sum }

/-- The full effect of `process_request` on the request state: the source
never assigns to `request` or `request.COOKIES` and both `return`
statements return `None`, so the embedding passes the cookie dict through
unchanged and produces no response, alongside the emitted metrics. -/
def process_request_effect (flagEnabled : Bool)
    (cookies : List (String × String)) :
    List (String × String) × Option Unit × PResult :=
  (cookies, none, process_request flagEnabled cookies)

/-! ### course_id_from_url -/

/-- `course_id_from_url(url)`.  `matcher` embeds `COURSE_REGEX.match`
(`none` = no match; `some none` = match whose `course_id` group is absent;
`some (some cid)` = match with that group), and `fromString` embeds
`CourseKey.from_string`, with `none` for a raised `InvalidKeyError`
(caught by the source).  `url = none` is Python `None`; `if not url` is
also true for the empty string. -/
def course_id_from_url {κ : Type}
    (matcher : String → Option (Option String))
    (fromString : String → Option κ) (url : Option String) : Option κ :=
  match url with
  | none => none
  | some u =>
    if u = "" then none
    else
      match matcher u with
      | none => none
      | some none => none
      | some (some course_id) => fromString course_id

/-! ### safe_get_host -/

/-- The dynamic type and content of `settings.ALLOWED_HOSTS` as far as
`safe_get_host` inspects it: either a `list`/`tuple` of strings, or a
value of any other type. -/
inductive AllowedHosts where
  | listOrTuple (hosts : List String)
  | otherType
  deriving Repr, DecidableEq

/-- The environment `safe_get_host` reads: `settings.ALLOWED_HOSTS`,
`settings.SITE_NAME`, the site configuration's `site_domain` value when
one is set, and the result of `request.get_host()`. -/
structure HostEnv where
  allowed_hosts : AllowedHosts
  site_name : String
  site_domain_config : Option String
  request_get_host : String
  deriving Repr, DecidableEq

/-- `configuration_helpers.get_value('site_domain', default)`: the
configured value when present, otherwise the default. -/
def get_value_site_domain (env : HostEnv) (dflt : String) : String :=
  env.site_domain_config.getD dflt

/-- `safe_get_host(request)`. -/
def safe_get_host (env : HostEnv) : String :=
  match env.allowed_hosts with
  | .listOrTuple hosts =>
      if "*" ∈ hosts then get_value_site_domain env env.site_name
      else env.request_get_host
  | .otherType => get_value_site_domain env env.site_name

/-! ### get_request_or_stub -/

/-- The stub built by
`RequestFactory(SERVER_NAME=..., SERVER_PORT=...).get("/")`: a GET
request for path `/` against the given server name and port. -/
structure StubRequest where
  method : String
  path : String
  server_name : Option String
  server_port : Nat
  deriving Repr, DecidableEq

/-- Result of `get_request_or_stub`: either the live current request or a
constructed stub. -/
inductive ReqOrStub (α : Type) where
  | current (r : α)
  | stub (s : StubRequest)
  deriving Repr, DecidableEq

/-- Python `x or 80` applied to `parsed_url.port` (an `Option Nat`):
`None` and `0` are falsy, any other port is returned unchanged. -/
def portOr80 : Option Nat → Nat
  | none => 80
  | some 0 => 80
  | some n => n

/-- `get_request_or_stub()`.  `currentRequest` embeds
`crum.get_current_request()`; `uparse` embeds `urlparse`, returning the
`.hostname` and `.port` attributes of its result, and is applied to
`"http://" + settings.SITE_NAME` exactly as the source formats it. -/
def get_request_or_stub {α : Type} (currentRequest : Option α)
    (uparse : String → Option String × Option Nat) (site_name : String) :
    ReqOrStub α :=
  match currentRequest with
  | some request => .current request
  | none =>
    let parsed_url := uparse ("http://" ++ site_name)
    .stub
      { method := "GET"
        path := "/"
        server_name := parsed_url.1
        server_port := portOr80 parsed_url.2 }

/-! ### Dictionary lemmas -/

theorem mem_dictKeys_dictSet (d : List (String × Nat)) (k k' : String)
    (v : Nat) : k' ∈ dictKeys (dictSet d k v) ↔ k' = k ∨ k' ∈ dictKeys d := by
  induction d with
  | nil => simp [dictSet, dictKeys]
  | cons p rest ih =>
    simp only [dictSet]
    split
    · rename_i hpk
      simp only [dictKeys, List.map_cons, List.mem_cons]
      rw [← hpk]
      tauto
    · simp only [dictKeys, List.map_cons, List.mem_cons]
      simp only [dictKeys] at ih
      rw [ih]
      tauto

theorem dictKeys_dictSet_nodup (d : List (String × Nat)) (k : String)
    (v : Nat) (h : (dictKeys d).Nodup) : (dictKeys (dictSet d k v)).Nodup := by
  induction d with
  | nil => simp [dictSet, dictKeys]
  | cons p rest ih =>
    simp only [dictKeys, List.map_cons, List.nodup_cons] at h
    simp only [dictSet]
    split
    · rename_i hpk
      simp only [dictKeys, List.map_cons, List.nodup_cons]
      exact ⟨by rw [← hpk]; exact h.1, h.2⟩
    · rename_i hpk
      simp only [dictKeys, List.map_cons, List.nodup_cons]
      refine ⟨?_, ih h.2⟩
      intro hmem
      rcases (mem_dictKeys_dictSet rest k p.1 v).mp hmem with he | hm
      · exact hpk he
      · exact h.1 hm

theorem dictGetD_dictSet_self (d : List (String × Nat)) (k : String)
    (v d0 : Nat) : dictGetD (dictSet d k v) k d0 = v := by
  induction d with
  | nil => simp [dictSet, dictGetD]
  | cons p rest ih =>
    simp only [dictSet]
    split
    · simp [dictGetD]
    · rename_i hpk
      simp only [dictGetD]
      rw [if_neg hpk]
      exact ih

theorem dictGetD_dictSet_other (d : List (String × Nat)) (k k' : String)
    (v d0 : Nat) (h : k' ≠ k) :
    dictGetD (dictSet d k v) k' d0 = dictGetD d k' d0 := by
  induction d with
  | nil =>
    simp only [dictSet, dictGetD]
    rw [if_neg (Ne.symm h)]
  | cons p rest ih =>
    simp only [dictSet]
    split
    · rename_i hpk
      simp only [dictGetD]
      rw [if_neg (Ne.symm h), if_neg (fun hh => h (hh.symm.trans hpk))]
    · rename_i hpk
      simp only [dictGetD]
      by_cases hpk' : p.1 = k'
      · rw [if_pos hpk', if_pos hpk']
      · rw [if_neg hpk', if_neg hpk']
        exact ih

theorem dictGetD_of_mem (d : List (String × Nat)) (k : String) (s : Nat)
    (hnd : (dictKeys d).Nodup) (h : (k, s) ∈ d) : dictGetD d k 0 = s := by
  induction d with
  | nil => simp at h
  | cons p rest ih =>
    rcases List.mem_cons.mp h with rfl | hmem
    · simp [dictGetD]
    · have hk : k ∈ dictKeys rest :=
        List.mem_map.mpr ⟨(k, s), hmem, rfl⟩
      have hnd' := hnd
      simp only [dictKeys, List.map_cons, List.nodup_cons] at hnd'
      have hne : p.1 ≠ k := fun he => hnd'.1 (he ▸ hk)
      simp only [dictGetD, if_neg hne]
      exact ih hnd'.2 hmem

theorem mem_of_dictKeys (d : List (String × Nat)) (k : String)
    (h : k ∈ dictKeys d) : (k, dictGetD d k 0) ∈ d := by
  induction d with
  | nil => simp [dictKeys] at h
  | cons p rest ih =>
    by_cases hpk : p.1 = k
    · subst hpk
      simp only [dictGetD, if_pos rfl]
      exact List.mem_cons_self _ _
    · simp only [dictKeys, List.map_cons, List.mem_cons] at h
      rcases h with h | h
      · exact absurd h.symm hpk
      · simp only [dictGetD, if_neg hpk]
        exact List.mem_cons_of_mem _ (ih h)

theorem dictSet_of_not_mem (d : List (String × Nat)) (k : String) (v : Nat)
    (h : k ∉ dictKeys d) : dictSet d k v = d ++ [(k, v)] := by
  induction d with
  | nil => simp [dictSet]
  | cons p rest ih =>
    simp only [dictKeys, List.map_cons, List.mem_cons] at h
    push_neg at h
    simp [dictSet, Ne.symm h.1, ih (by simpa [dictKeys] using h.2)]

/-! ### Python max lemmas -/

theorem pyStep_mem (acc q : String × Nat) : pyStep acc q = acc ∨ pyStep acc q = q := by
  unfold pyStep
  split
  · exact Or.inr rfl
  · exact Or.inl rfl

theorem pyStep_snd (acc q : String × Nat) :
    (pyStep acc q).2 = Nat.max acc.2 q.2 := by
  unfold pyStep
  split
  · rename_i hgt
    exact (Nat.max_eq_right (Nat.le_of_lt hgt)).symm
  · rename_i hle
    exact (Nat.max_eq_left (Nat.le_of_not_lt hle)).symm

theorem foldl_pyStep_mem (l : List (String × Nat)) :
    ∀ p, l.foldl pyStep p ∈ p :: l := by
  induction l with
  | nil => intro p; simp
  | cons q rest ih =>
    intro p
    have h1 : rest.foldl pyStep (pyStep p q) ∈ pyStep p q :: rest := ih _
    have h2 := pyStep_mem p q
    simp only [List.foldl_cons]
    rcases List.mem_cons.mp h1 with he | hm
    · rcases h2 with ha | ha
      · rw [he, ha]; exact List.mem_cons_self _ _
      · rw [he, ha]
        exact List.mem_cons_of_mem _ (List.mem_cons_self _ _)
    · exact List.mem_cons_of_mem _ (List.mem_cons_of_mem _ hm)

theorem foldl_pyStep_init_le (l : List (String × Nat)) :
    ∀ p, p.2 ≤ (l.foldl pyStep p).2 := by
  induction l with
  | nil => intro p; exact Nat.le_refl _
  | cons q rest ih =>
    intro p
    simp only [List.foldl_cons]
    refine Nat.le_trans ?_ (ih (pyStep p q))
    rw [pyStep_snd]
    exact Nat.le_max_left _ _

theorem foldl_pyStep_ge (l : List (String × Nat)) :
    ∀ p q, q ∈ p :: l → q.2 ≤ (l.foldl pyStep p).2 := by
  induction l with
  | nil =>
    intro p q hq
    simp only [List.mem_cons, List.not_mem_nil, or_false] at hq
    rw [hq]
    exact Nat.le_refl _
  | cons a rest ih =>
    intro p q hq
    simp only [List.foldl_cons]
    rcases List.mem_cons.mp hq with rfl | hq'
    · refine Nat.le_trans ?_ (foldl_pyStep_init_le rest (pyStep q a))
      rw [pyStep_snd]
      exact Nat.le_max_left _ _
    · rcases List.mem_cons.mp hq' with rfl | hq''
      · refine Nat.le_trans ?_ (foldl_pyStep_init_le rest (pyStep p q))
        rw [pyStep_snd]
        exact Nat.le_max_right _ _
      · exact ih (pyStep p a) q (List.mem_cons_of_mem _ hq'')

theorem pyMaxByVal_mem {d : List (String × Nat)} {m : String × Nat}
    (h : pyMaxByVal d = some m) : m ∈ d := by
  cases d with
  | nil => simp [pyMaxByVal] at h
  | cons p rest =>
    simp only [pyMaxByVal, Option.some.injEq] at h
    rw [← h]
    exact foldl_pyStep_mem rest p

theorem pyMaxByVal_ge {d : List (String × Nat)} {m : String × Nat}
    (h : pyMaxByVal d = some m) : ∀ q ∈ d, q.2 ≤ m.2 := by
  cases d with
  | nil => simp [pyMaxByVal] at h
  | cons p rest =>
    simp only [pyMaxByVal, Option.some.injEq] at h
    intro q hq
    rw [← h]
    exact foldl_pyStep_ge rest p q hq

theorem pyMaxByVal_none {d : List (String × Nat)}
    (h : pyMaxByVal d = none) : d = [] := by
  cases d with
  | nil => rfl
  | cons p rest => simp [pyMaxByVal] at h

/-! ### Nat max fold lemmas -/

theorem foldl_nat_max_le (l : List Nat) :
    ∀ b x, b ≤ x → (∀ y ∈ l, y ≤ x) → l.foldl Nat.max b ≤ x := by
  induction l with
  | nil => intro b x hb _; exact hb
  | cons a rest ih =>
    intro b x hb hall
    simp only [List.foldl_cons]
    refine ih _ _ (Nat.max_le.mpr ⟨hb, hall a (List.mem_cons_self _ _)⟩) ?_
    intro y hy
    exact hall y (List.mem_cons_of_mem _ hy)

theorem le_foldl_nat_max_init (l : List Nat) :
    ∀ b, b ≤ l.foldl Nat.max b := by
  induction l with
  | nil => intro b; exact Nat.le_refl _
  | cons a rest ih =>
    intro b
    simp only [List.foldl_cons]
    exact Nat.le_trans (Nat.le_max_left b a) (ih _)

theorem le_foldl_nat_max_of_mem (l : List Nat) :
    ∀ b x, x ∈ l → x ≤ l.foldl Nat.max b := by
  induction l with
  | nil => intro b x hx; simp at hx
  | cons a rest ih =>
    intro b x hx
    simp only [List.foldl_cons]
    rcases List.mem_cons.mp hx with rfl | hx'
    · exact Nat.le_trans (Nat.le_max_right b x) (le_foldl_nat_max_init rest _)
    · exact ih _ x hx'

theorem foldl_nat_max_eq_of_max (l : List Nat) (x : Nat) (hx : x ∈ l)
    (hall : ∀ y ∈ l, y ≤ x) : l.foldl Nat.max 0 = x :=
  Nat.le_antisymm (foldl_nat_max_le l 0 x (Nat.zero_le x) hall)
    (le_foldl_nat_max_of_mem l 0 x hx)

/-! ### Cookie fold lemmas -/

theorem foldl_cookieFold_fst (cookies : List (String × String)) :
    ∀ ns gs, (cookies.foldl cookieFold (ns, gs)).1 = cookies.foldl namesStep ns := by
  induction cookies with
  | nil => intro ns gs; rfl
  | cons c rest ih =>
    intro ns gs
    simp only [List.foldl_cons]
    exact ih (namesStep ns c) (groupsStep gs c)

theorem foldl_cookieFold_snd (cookies : List (String × String)) :
    ∀ ns gs, (cookies.foldl cookieFold (ns, gs)).2 = cookies.foldl groupsStep gs := by
  induction cookies with
  | nil => intro ns gs; rfl
  | cons c rest ih =>
    intro ns gs
    simp only [List.foldl_cons]
    exact ih (namesStep ns c) (groupsStep gs c)

theorem foldl_namesStep_eq (cookies : List (String × String)) :
    ∀ acc, (∀ n ∈ cookies.map Prod.fst, n ∉ dictKeys acc) →
      (cookies.map Prod.fst).Nodup →
      cookies.foldl namesStep acc =
        acc ++ cookies.map (fun c => (c.1, c.2.length)) := by
  induction cookies with
  | nil => intro acc _ _; simp
  | cons c rest ih =>
    intro acc hfresh hnd
    simp only [List.map_cons, List.nodup_cons] at hnd
    have hc : c.1 ∉ dictKeys acc :=
      hfresh c.1 (by simp)
    simp only [List.foldl_cons, namesStep]
    rw [dictSet_of_not_mem acc c.1 c.2.length hc]
    rw [ih (acc ++ [(c.1, c.2.length)]) ?_ hnd.2]
    · simp
    · intro n hn
      simp only [dictKeys, List.map_append, List.map_cons, List.map_nil,
        List.mem_append, List.mem_cons, List.not_mem_nil, or_false]
      push_neg
      constructor
      · exact hfresh n (List.mem_cons_of_mem _ hn)
      · intro he
        exact hnd.1 (he ▸ hn)

/-- The qualifying-cookie filter for a prefix group `g`. -/
def inGroup (g : String) (c : String × String) : Bool :=
  grouped c.1 && groupingName c.1 == g

theorem foldl_groupsStep_getD (cookies : List (String × String)) :
    ∀ acc g, dictGetD (cookies.foldl groupsStep acc) g 0 =
      dictGetD acc g 0 +
        ((cookies.filter (inGroup g)).map (fun c => c.2.length)).sum := by
  induction cookies with
  | nil => intro acc g; simp
  | cons c rest ih =>
    intro acc g
    simp only [List.foldl_cons]
    by_cases hg : grouped c.1
    · by_cases he : groupingName c.1 = g
      · have hfil : inGroup g c = true := by
          simp [inGroup, hg, he]
        rw [show groupsStep acc c =
              dictSet acc g (dictGetD acc g 0 + c.2.length) by
            simp [groupsStep, hg, he]]
        rw [ih]
        rw [dictGetD_dictSet_self]
        simp only [List.filter_cons, hfil, if_pos, List.map_cons, List.sum_cons]
        omega
      · have hfil : inGroup g c = false := by
          simp [inGroup, he]
        rw [show groupsStep acc c =
              dictSet acc (groupingName c.1)
                (dictGetD acc (groupingName c.1) 0 + c.2.length) by
            simp [groupsStep, hg]]
        rw [ih]
        rw [dictGetD_dictSet_other _ _ _ _ _ (fun hh => he hh.symm)]
        simp [List.filter_cons, hfil]
    · have hfil : inGroup g c = false := by
        simp [inGroup, hg]
      rw [show groupsStep acc c = acc by simp [groupsStep, hg]]
      rw [ih]
      simp [List.filter_cons, hfil]

theorem foldl_groupsStep_keys (cookies : List (String × String)) :
    ∀ acc g, g ∈ dictKeys (cookies.foldl groupsStep acc) ↔
      g ∈ dictKeys acc ∨
        ∃ c ∈ cookies, grouped c.1 = true ∧ groupingName c.1 = g := by
  induction cookies with
  | nil => intro acc g; simp
  | cons c rest ih =>
    intro acc g
    simp only [List.foldl_cons]
    rw [ih]
    by_cases hg : grouped c.1
    · rw [show groupsStep acc c =
            dictSet acc (groupingName c.1)
              (dictGetD acc (groupingName c.1) 0 + c.2.length) by
          simp [groupsStep, hg]]
      rw [mem_dictKeys_dictSet]
      constructor
      · rintro ((he | hm) | hrest)
        · exact Or.inr ⟨c, List.mem_cons_self _ _, hg, he.symm⟩
        · exact Or.inl hm
        · rcases hrest with ⟨c', hc', hgc', hge⟩
          exact Or.inr ⟨c', List.mem_cons_of_mem _ hc', hgc', hge⟩
      · rintro (hm | ⟨c', hc', hgc', hge⟩)
        · exact Or.inl (Or.inr hm)
        · rcases List.mem_cons.mp hc' with rfl | hc''
          · exact Or.inl (Or.inl hge.symm)
          · exact Or.inr ⟨c', hc'', hgc', hge⟩
    · rw [show groupsStep acc c = acc by simp [groupsStep, hg]]
      constructor
      · rintro (hm | hrest)
        · exact Or.inl hm
        · rcases hrest with ⟨c', hc', hgc', hge⟩
          exact Or.inr ⟨c', List.mem_cons_of_mem _ hc', hgc', hge⟩
      · rintro (hm | ⟨c', hc', hgc', hge⟩)
        · exact Or.inl hm
        · rcases List.mem_cons.mp hc' with rfl | hc''
          · exact absurd hgc' (by simpa using hg)
          · exact Or.inr ⟨c', hc'', hgc', hge⟩

theorem foldl_groupsStep_nodup (cookies : List (String × String)) :
    ∀ acc, (dictKeys acc).Nodup →
      (dictKeys (cookies.foldl groupsStep acc)).Nodup := by
  induction cookies with
  | nil => intro acc h; exact h
  | cons c rest ih =>
    intro acc h
    simp only [List.foldl_cons]
    refine ih _ ?_
    unfold groupsStep
    split
    · exact dictKeys_dictSet_nodup _ _ _ h
    · exact h

/-! ### Facts about the two maps built by the cookie loop -/

theorem cookieMaps_fst_eq (cookies : List (String × String))
    (hnd : (cookies.map Prod.fst).Nodup) :
    (cookieMaps cookies).1 = cookies.map (fun c => (c.1, c.2.length)) := by
  unfold cookieMaps
  rw [foldl_cookieFold_fst]
  rw [foldl_namesStep_eq cookies [] (by simp [dictKeys]) hnd]
  simp

theorem cookieMaps_snd_getD (cookies : List (String × String)) (g : String) :
    dictGetD (cookieMaps cookies).2 g 0 =
      ((cookies.filter (inGroup g)).map (fun c => c.2.length)).sum := by
  unfold cookieMaps
  rw [foldl_cookieFold_snd]
  rw [foldl_groupsStep_getD]
  simp [dictGetD]

theorem cookieMaps_snd_keys (cookies : List (String × String)) (g : String) :
    g ∈ dictKeys (cookieMaps cookies).2 ↔
      ∃ c ∈ cookies, grouped c.1 = true ∧ groupingName c.1 = g := by
  unfold cookieMaps
  rw [foldl_cookieFold_snd]
  rw [foldl_groupsStep_keys]
  simp [dictKeys]

theorem cookieMaps_snd_nodup (cookies : List (String × String)) :
    (dictKeys (cookieMaps cookies).2).Nodup := by
  unfold cookieMaps
  rw [foldl_cookieFold_snd]
  exact foldl_groupsStep_nodup cookies [] (by simp [dictKeys])

/-! ### Eliminating a normal run of process_request -/

theorem process_request_report_elim {cookies : List (String × String)}
    {r : CookieReport} (h : process_request true cookies = .report r) :
    ∃ mc mg, pyMaxByVal (cookieMaps cookies).1 = some mc ∧
      pyMaxByVal (cookieMaps cookies).2 = some mg ∧
      r = { groupAttrs := (cookieMaps cookies).2
            maxName := mc.1
            maxSize := mc.2
            maxGroupName := (if mg.2 < mc.2 then mc else mg).1
            maxGroupSize := (if mg.2 < mc.2 then mc else mg).2
            totalSize := ((cookieMaps cookies).1.map Prod.snd).sum } := by
  unfold process_request at h
  simp only [Bool.not_true, Bool.false_eq_true, if_false] at h
  rcases h1 : pyMaxByVal (cookieMaps cookies).1 with _ | mc
  · rw [h1] at h
    simp at h
  · rw [h1] at h
    rcases h2 : pyMaxByVal (cookieMaps cookies).2 with _ | mg
    · rw [h2] at h
      simp at h
    · rw [h2] at h
      simp only [PResult.report.injEq] at h
      exact ⟨mc, mg, rfl, rfl, h.symm⟩

/-! ### takeWhile structure lemmas for the grouping prefix -/

theorem takeWhile_split {α : Type} (p : α → Bool) (l : List α)
    (h : l.takeWhile p ≠ l) :
    ∃ ch rest, l = l.takeWhile p ++ ch :: rest ∧ p ch = false := by
  induction l with
  | nil => simp at h
  | cons c l' ih =>
    by_cases hp : p c
    · rw [List.takeWhile_cons_of_pos hp] at h ⊢
      have h' : l'.takeWhile p ≠ l' := by
        intro he
        exact h (by rw [he])
      rcases ih h' with ⟨ch, rest, heq, hch⟩
      refine ⟨ch, rest, ?_, hch⟩
      rw [List.cons_append, ← heq]
    · rw [List.takeWhile_cons_of_neg hp] at h ⊢
      exact ⟨c, l', rfl, Bool.of_not_eq_true hp⟩

theorem groupingName_data (name : String) :
    (groupingName name).data = name.data.takeWhile notSep := rfl

theorem groupingName_eq_of_all (name : String)
    (h : ∀ ch ∈ name.data, notSep ch = true) : groupingName name = name := by
  have : name.data.takeWhile notSep = name.data :=
    List.takeWhile_eq_self_iff.mpr h
  unfold groupingName
  rw [this]

/-! ### Claim theorems -/

/-- C1: the claim states that `process_request` (flag enabled) completes the
per-cookie and per-group computation without raising for every cookie
mapping, including a request with no cookies and a request in which no
cookie name yields a prefix group.  The code instead reaches
`max(cookie_names_to_size, ...)` on an empty dict when there are no
cookies, and `max(cookie_groups_to_size, ...)` on an empty dict when no
cookie has a proper prefix group; Python's `max` raises
`ValueError: max() arg is an empty sequence` there (modelled as
`PResult.error`). -/
theorem process_request_error_on_empty :
    process_request true [] = .error ∧
    process_request true [("sessionid", "abcdef")] = .error :=
  ⟨rfl, rfl⟩

/-- C9: `process_request` is free of request-visible side effects: it
leaves the request's cookie mapping unchanged and returns `None` (never a
response), for every flag state and request; the emitted metrics are a
pure function of the request alone. -/
theorem process_request_frame (flag : Bool)
    (cookies : List (String × String)) :
    (process_request_effect flag cookies).1 = cookies ∧
    (process_request_effect flag cookies).2.1 = none ∧
    process_request_effect flag cookies =
      (cookies, none, process_request flag cookies) :=
  ⟨rfl, rfl, rfl⟩

/-- C10: with the `capture_cookie_sizes` flag disabled, `process_request`
returns immediately with no attributes or log output, and its outcome does
not depend on the request's cookies at all. -/
theorem process_request_flag_disabled (cookies cookies' : List (String × String)) :
    process_request false cookies = .skipped ∧
    process_request false cookies = process_request false cookies' :=
  ⟨rfl, rfl⟩

/-- C3: `course_id_from_url` returns `None` for absent input (`None` or
the empty string); otherwise it feeds the regex match through
`CourseKey.from_string`, so a missing match or missing `course_id` group
gives `None`, an invalid key (a raised-and-caught `InvalidKeyError`,
i.e. `fromString = none`) gives `None`, and a valid key is returned; the
function is total, so no key-parsing error propagates. -/
theorem course_id_from_url_spec {κ : Type}
    (matcher : String → Option (Option String))
    (fromString : String → Option κ) (url : String) (h : url ≠ "") :
    course_id_from_url matcher fromString none = none ∧
    course_id_from_url matcher fromString (some "") = none ∧
    course_id_from_url matcher fromString (some url) =
      ((matcher url).bind id).bind fromString := by
  refine ⟨rfl, rfl, ?_⟩
  cases hmu : matcher url with
  | none => simp [course_id_from_url, h, hmu]
  | some mo =>
    cases mo with
    | none => simp [course_id_from_url, h, hmu]
    | some course_id => simp [course_id_from_url, h, hmu]

/-- Witness for C3 at concrete inputs. -/
theorem course_id_from_url_spec_witness :
    course_id_from_url (fun _ => some (some "course-v1:Org+Num+Run"))
        (fun _ => some (1 : Nat)) none = none ∧
    course_id_from_url (fun _ => some (some "course-v1:Org+Num+Run"))
        (fun _ => some (1 : Nat)) (some "") = none ∧
    course_id_from_url (fun _ => some (some "course-v1:Org+Num+Run"))
        (fun _ => some (1 : Nat))
        (some "/api/courses/v1/course-v1:Org+Num+Run") =
      ((some (some "course-v1:Org+Num+Run")).bind id).bind
        (fun _ => some (1 : Nat)) :=
  course_id_from_url_spec (fun _ => some (some "course-v1:Org+Num+Run"))
    (fun _ => some (1 : Nat)) "/api/courses/v1/course-v1:Org+Num+Run"
    (by decide)

/-- C4: `safe_get_host` returns `request.get_host()` exactly when
`ALLOWED_HOSTS` is a list or tuple not containing `'*'`; in every other
case it returns the site-configured `site_domain`, defaulting to
`settings.SITE_NAME`. -/
theorem safe_get_host_spec (env : HostEnv) :
    (∀ hosts, env.allowed_hosts = .listOrTuple hosts → "*" ∉ hosts →
      safe_get_host env = env.request_get_host) ∧
    (∀ hosts, env.allowed_hosts = .listOrTuple hosts → "*" ∈ hosts →
      safe_get_host env = env.site_domain_config.getD env.site_name) ∧
    (env.allowed_hosts = .otherType →
      safe_get_host env = env.site_domain_config.getD env.site_name) := by
  refine ⟨?_, ?_, ?_⟩
  · intro hosts he hni
    simp [safe_get_host, he, hni]
  · intro hosts he hi
    simp [safe_get_host, get_value_site_domain, he, hi]
  · intro he
    simp [safe_get_host, get_value_site_domain, he]

/-- Witness for C4: a well-formed `ALLOWED_HOSTS` list without `'*'` makes
`safe_get_host` return `request.get_host()`. -/
theorem safe_get_host_spec_witness :
    safe_get_host
      { allowed_hosts := .listOrTuple ["example.com"],
        site_name := "site.example",
        site_domain_config := some "cfg.example",
        request_get_host := "req.example" } = "req.example" :=
  (safe_get_host_spec _).1 ["example.com"] rfl (by decide)

/-- C8: `get_request_or_stub` returns the current request whenever one
exists; otherwise it returns a stub GET request for the path `/` whose
server name and port come from parsing `"http://" + settings.SITE_NAME`,
the port defaulting to 80 when none is specified. -/
theorem get_request_or_stub_spec {α : Type} (currentRequest : Option α)
    (uparse : String → Option String × Option Nat) (site_name : String) :
    (∀ r, currentRequest = some r →
      get_request_or_stub currentRequest uparse site_name = .current r) ∧
    (currentRequest = none →
      get_request_or_stub currentRequest uparse site_name =
        .stub { method := "GET", path := "/",
                server_name := (uparse ("http://" ++ site_name)).1,
                server_port := portOr80 (uparse ("http://" ++ site_name)).2 }) ∧
    portOr80 none = 80 := by
  refine ⟨?_, ?_, rfl⟩
  · intro r hr
    rw [hr]
    rfl
  · intro hn
    rw [hn]
    rfl

/-- Witness for C8 at a concrete environment with no live request and a
`SITE_NAME` that specifies no port. -/
theorem get_request_or_stub_spec_witness :
    get_request_or_stub (α := Nat) none
        (fun _ => (some "example.com", none)) "example.com" =
      .stub { method := "GET", path := "/",
              server_name := some "example.com", server_port := 80 } ∧
    portOr80 none = 80 :=
  ⟨(get_request_or_stub_spec (α := Nat) none
      (fun _ => (some "example.com", none)) "example.com").2.1 rfl,
   (get_request_or_stub_spec (α := Nat) none
      (fun _ => (some "example.com", none)) "example.com").2.2⟩

/-- C6: for a report emitted by `process_request`, `cookies.max.size` is
the maximum over all cookies of the cookie value's length, and
`cookies.max.name` is a cookie name attaining that maximum. -/
theorem cookies_max_attributes (cookies : List (String × String))
    (r : CookieReport) (hnd : (cookies.map Prod.fst).Nodup)
    (h : process_request true cookies = .report r) :
    (∃ v, (r.maxName, v) ∈ cookies ∧ v.length = r.maxSize) ∧
    ∀ c ∈ cookies, c.2.length ≤ r.maxSize := by
  rcases process_request_report_elim h with ⟨mc, mg, h1, h2, hr⟩
  subst hr
  dsimp only
  have hfst := cookieMaps_fst_eq cookies hnd
  have hmem := pyMaxByVal_mem h1
  have hge := pyMaxByVal_ge h1
  rw [hfst] at hmem hge
  constructor
  · rcases List.mem_map.mp hmem with ⟨c, hc, hce⟩
    have h11 : mc.1 = c.1 := by rw [← hce]
    have h12 : mc.2 = c.2.length := by rw [← hce]
    refine ⟨c.2, ?_, h12.symm⟩
    rw [h11]
    exact hc
  · intro c hc
    have hmm : (c.1, c.2.length) ∈ cookies.map (fun c => (c.1, c.2.length)) :=
      List.mem_map.mpr ⟨c, hc, rfl⟩
    exact hge _ hmm

/-- Witness for C6 on a concrete two-cookie request. -/
theorem cookies_max_attributes_witness :
    (∃ v, ("ab.x", v) ∈ [("ab.x", "aaa"), ("ab.y", "bb")] ∧ v.length = 3) ∧
    ∀ c ∈ [("ab.x", "aaa"), ("ab.y", "bb")], c.2.length ≤ 3 :=
  cookies_max_attributes [("ab.x", "aaa"), ("ab.y", "bb")]
    { groupAttrs := [("ab", 5)], maxName := "ab.x", maxSize := 3,
      maxGroupName := "ab", maxGroupSize := 5, totalSize := 5 }
    (by decide) (by decide)

/-- C7: the reported `cookies_total_size` is the sum over all cookies of
the cookie value's length. -/
theorem cookies_total_size_spec (cookies : List (String × String))
    (r : CookieReport) (hnd : (cookies.map Prod.fst).Nodup)
    (h : process_request true cookies = .report r) :
    r.totalSize = (cookies.map (fun c => c.2.length)).sum := by
  rcases process_request_report_elim h with ⟨mc, mg, h1, h2, hr⟩
  subst hr
  dsimp only
  rw [cookieMaps_fst_eq cookies hnd, List.map_map]
  rfl

/-- Witness for C7 on a concrete two-cookie request. -/
theorem cookies_total_size_spec_witness :
    (5 : Nat) = ([("ab.x", "aaa"), ("ab.y", "bb")].map
      (fun c => c.2.length)).sum :=
  cookies_total_size_spec [("ab.x", "aaa"), ("ab.y", "bb")]
    { groupAttrs := [("ab", 5)], maxName := "ab.x", maxSize := 3,
      maxGroupName := "ab", maxGroupSize := 5, totalSize := 5 }
    (by decide) (by decide)

/-- C2: `cookies.max.group.{name,size}` report the prefix group of largest
summed size, except that a single cookie strictly larger than every group
is reported instead (a group of one); on a tie the group wins.  Hence the
reported `cookies.max.group.size` is at least `cookies.max.size` and at
least every group's summed size. -/
theorem cookies_max_group_tiebreak (cookies : List (String × String))
    (r : CookieReport) (h : process_request true cookies = .report r) :
    ((r.groupAttrs.map Prod.snd).foldl Nat.max 0 < r.maxSize →
      r.maxGroupName = r.maxName ∧ r.maxGroupSize = r.maxSize) ∧
    (r.maxSize ≤ (r.groupAttrs.map Prod.snd).foldl Nat.max 0 →
      r.maxGroupSize = (r.groupAttrs.map Prod.snd).foldl Nat.max 0 ∧
      (r.maxGroupName, r.maxGroupSize) ∈ r.groupAttrs) ∧
    r.maxSize ≤ r.maxGroupSize ∧
    ∀ p ∈ r.groupAttrs, p.2 ≤ r.maxGroupSize := by
  rcases process_request_report_elim h with ⟨mc, mg, h1, h2, hr⟩
  subst hr
  dsimp only
  have hmem := pyMaxByVal_mem h2
  have hge := pyMaxByVal_ge h2
  have hbest : ((cookieMaps cookies).2.map Prod.snd).foldl Nat.max 0 = mg.2 := by
    refine foldl_nat_max_eq_of_max _ _ (List.mem_map.mpr ⟨mg, hmem, rfl⟩) ?_
    intro y hy
    rcases List.mem_map.mp hy with ⟨q, hq, rfl⟩
    exact hge q hq
  rw [hbest]
  by_cases hlt : mg.2 < mc.2
  · rw [if_pos hlt]
    refine ⟨fun _ => ⟨rfl, rfl⟩, ?_, Nat.le_refl _, ?_⟩
    · intro hle
      exact absurd hlt (Nat.not_lt.mpr hle)
    · intro p hp
      exact Nat.le_trans (hge p hp) (Nat.le_of_lt hlt)
  · rw [if_neg hlt]
    refine ⟨?_, fun _ => ⟨rfl, hmem⟩, Nat.le_of_not_lt hlt, ?_⟩
    · intro hlt'
      exact absurd hlt' hlt
    · intro p hp
      exact hge p hp

/-- Witness for C2 on a request where the largest single cookie beats the
largest group. -/
theorem cookies_max_group_tiebreak_witness :
    (([("ab", 7)].map Prod.snd).foldl Nat.max 0 < 9 →
      ("big" : String) = "big" ∧ (9 : Nat) = 9) ∧
    ((9 : Nat) ≤ ([("ab", 7)].map Prod.snd).foldl Nat.max 0 →
      (9 : Nat) = ([("ab", 7)].map Prod.snd).foldl Nat.max 0 ∧
      ("big", (9 : Nat)) ∈ [("ab", 7)]) ∧
    (9 : Nat) ≤ 9 ∧
    ∀ p ∈ [(("ab" : String), (7 : Nat))], p.2 ≤ 9 :=
  cookies_max_group_tiebreak
    [("ab.one", "aaa"), ("ab.two", "bbbb"), ("big", "ccccccccc")]
    { groupAttrs := [("ab", 7)], maxName := "big", maxSize := 9,
      maxGroupName := "big", maxGroupSize := 9, totalSize := 16 }
    (by decide)

/-- C5: the grouping prefix is the part of the cookie name before the
first `'.'` or `'_'`; a cookie contributes to a group only when that
prefix is non-empty and differs from the full name (so a name without a
separator belongs to no group); each group's recorded size is the sum of
the sizes of exactly the qualifying cookies with that prefix; and a
`cookies.<group_prefix>.group.size` attribute exists for every group and
only for groups. -/
theorem cookie_grouping_spec (cookies : List (String × String))
    (r : CookieReport) (h : process_request true cookies = .report r) :
    (∀ name : String, (groupingName name).data <+: name.data ∧
      ∀ ch ∈ (groupingName name).data, ch ≠ '.' ∧ ch ≠ '_') ∧
    (∀ name : String, groupingName name ≠ name →
      ∃ ch rest, name.data = (groupingName name).data ++ ch :: rest ∧
        (ch = '.' ∨ ch = '_')) ∧
    (∀ name : String, (∀ ch ∈ name.data, ch ≠ '.' ∧ ch ≠ '_') →
      grouped name = false) ∧
    (∀ g s, (g, s) ∈ r.groupAttrs →
      (∃ c ∈ cookies, grouped c.1 = true ∧ groupingName c.1 = g) ∧
      s = ((cookies.filter (inGroup g)).map (fun c => c.2.length)).sum) ∧
    (∀ c ∈ cookies, grouped c.1 = true →
      groupingName c.1 ∈ r.groupAttrs.map Prod.fst) := by
  rcases process_request_report_elim h with ⟨mc, mg, h1, h2, hr⟩
  subst hr
  dsimp only
  refine ⟨?_, ?_, ?_, ?_, ?_⟩
  · intro name
    rw [groupingName_data]
    refine ⟨List.takeWhile_prefix notSep, ?_⟩
    intro ch hch
    have := List.mem_takeWhile_imp hch
    simpa [notSep] using this
  · intro name hne
    have hdne : name.data.takeWhile notSep ≠ name.data := by
      intro he
      exact hne (groupingName_eq_of_all name (List.takeWhile_eq_self_iff.mp he))
    rcases takeWhile_split notSep name.data hdne with ⟨ch, rest, heq, hch⟩
    refine ⟨ch, rest, ?_, ?_⟩
    · rw [groupingName_data]
      exact heq
    · have h' : ¬ch = '.' → ch = '_' := by simpa [notSep] using hch
      exact or_iff_not_imp_left.mpr h'
  · intro name hall
    have heq : groupingName name = name := by
      refine groupingName_eq_of_all name ?_
      intro ch hch
      simp [notSep, (hall ch hch).1, (hall ch hch).2]
    simp [grouped, heq]
  · intro g s hmem
    have hnd := cookieMaps_snd_nodup cookies
    have hkey : g ∈ dictKeys (cookieMaps cookies).2 :=
      List.mem_map.mpr ⟨(g, s), hmem, rfl⟩
    refine ⟨(cookieMaps_snd_keys cookies g).mp hkey, ?_⟩
    have := dictGetD_of_mem (cookieMaps cookies).2 g s hnd hmem
    rw [← this]
    exact cookieMaps_snd_getD cookies g
  · intro c hc hq
    exact (cookieMaps_snd_keys cookies (groupingName c.1)).mpr
      ⟨c, hc, hq, rfl⟩

/-- Witness for C5 on a request mixing grouped and ungrouped cookies. -/
theorem cookie_grouping_spec_witness :
    ((∃ c ∈ [("ab.one", "aaa"), ("sessionid", "zz"), ("ab_two", "bbbb")],
        grouped c.1 = true ∧ groupingName c.1 = "ab") ∧
      (7 : Nat) = (([("ab.one", "aaa"), ("sessionid", "zz"),
          ("ab_two", "bbbb")].filter (inGroup "ab")).map
            (fun c => c.2.length)).sum) ∧
    grouped "sessionid" = false := by
  have h := cookie_grouping_spec
    [("ab.one", "aaa"), ("sessionid", "zz"), ("ab_two", "bbbb")]
    { groupAttrs := [("ab", 7)], maxName := "ab_two", maxSize := 4,
      maxGroupName := "ab", maxGroupSize := 7, totalSize := 9 }
    (by decide)
  exact ⟨h.2.2.2.1 "ab" 7 (by simp), h.2.2.1 "sessionid" (by decide)⟩

end RequestUtils
